import Mathlib

/-!
Verification of `src/fastforward.c` (the "timescale" feature of sst).

The C file is shallowly embedded here.  Machine memory is a byte map
`Nat → Nat` (each value is a byte, reduced mod 256 where it is
reinterpreted), code addresses are natural numbers, and 32-bit pointer
arithmetic is taken mod 2^32.  The instruction stream walker `x86_len`
(from `x86.h`, not part of the repository sources available here) is
modelled from the spec as an oracle `len : Nat → Nat` giving the encoded
length of the instruction at each address; theorems assume the walker
contract (`1 ≤ len q`, and where needed `len q ≤ 16`, the x86 maximum).
The float-typed globals (`skiptime`, `realtime`, `host_frametime`) are
modelled over `Rat`; the claims about them concern control flow and
exactly-once consumption, not floating-point rounding.
-/

namespace SST

/-- Little-endian 32-bit load at address `a`, as performed by
`mem_load32` / `mem_loadptr` (32-bit build). -/
def load32 (mem : Nat → Nat) (a : Nat) : Nat :=
  mem a % 256 + 256 * (mem (a + 1) % 256) + 65536 * (mem (a + 2) % 256) +
    16777216 * (mem (a + 3) % 256)

/-- Reinterpret a 32-bit value as a signed integer, as the cast
`(int)mem_load32(..)` does. -/
def toSigned32 (v : Nat) : Int :=
  if v < 2147483648 then (v : Int) else (v : Int) - 4294967296

/-- First opcode byte of the second x87 float block (the FLD family). -/
def X86_FLTBLK2 : Nat := 0xd9

/-- Near relative call with 32-bit displacement. -/
def X86_CALL : Nat := 0xe8

/-- `mov r32, r/m32`. -/
def X86_MOVRMW : Nat := 0x8b

/-- ALU operation with sign-extended 8-bit immediate (`cmp` is reg 7). -/
def X86_ALUMI8S : Nat := 0x83

/-- ModRM byte from mod, reg and rm fields. -/
def X86_MODRM (m reg rm : Nat) : Nat := m * 64 + reg * 8 + rm

/-- Bytes of a 32-bit value in little-endian order. -/
def le32 (v : Nat) : List Nat :=
  [v % 256, v / 256 % 256, v / 65536 % 256, v / 16777216 % 256]

/-- Store a list of bytes into a byte map starting at address `a`. -/
def storeBytes : (Nat → Nat) → Nat → List Nat → (Nat → Nat)
  | m, _, [] => m
  | m, a, b :: bs => storeBytes (fun x => if x = a then b else m x) (a + 1) bs

/-- Read `n` bytes starting at address `a`. -/
def readBytes (mem : Nat → Nat) (a n : Nat) : List Nat :=
  (List.range n).map fun i => mem (a + i)

/-- `floatgetter` (fastforward.c lines 67-71): if the function body starts
with `FLD dword ptr [disp32]` (opcode `X86_FLTBLK2`, ModRM `0x05`), return
the embedded absolute operand; otherwise return no value (`NULL`). -/
def floatgetter (mem : Nat → Nat) (fn : Nat) : Option Nat :=
  if mem fn ≠ X86_FLTBLK2 ∨ mem (fn + 1) ≠ 0x05 then none
  else some (load32 mem (fn + 2))

/-- Resolved target of the near relative call at `p`:
`p + x86_len(p) + offset`, in 32-bit pointer arithmetic. -/
def callTarget (mem len : Nat → Nat) (p : Nat) : Nat :=
  (p + len p + load32 mem (p + 1)) % 4294967296

/-- Addresses the walker reads while sizing the instruction at `p`
(the bytes of that instruction). -/
def insnReads (len : Nat → Nat) (p : Nat) : List Nat :=
  (List.range (len p)).map (p + ·)

/-- Loop body of `find_floatcall` (fastforward.c lines 75-88),
instrumented with the list of byte addresses read so far.  `p` is the
current instruction address, `nextcall` the arming flag; the scan runs
while `p - entry < 384`.  Reads recorded per iteration: `p[0]` always;
`p[1]` whenever `p[0]` is the FLD-block opcode (short-circuit of the
arming test); `p+1 … p+4` for the displacement load of a confirming call;
and the bytes the walker consumes in `x86_len` / `NEXT_INSN`. -/
def find_floatcall_go (mem len : Nat → Nat) (entry : Nat) :
    Nat → Nat → Bool → List Nat → Option Nat × List Nat
  | 0, _, _, acc => (none, acc)
  | fuel + 1, p, nextcall, acc =>
    if p < entry + 384 then
      if mem p = X86_FLTBLK2 then
        if mem (p + 1) &&& 0x38 = 0 then
          find_floatcall_go mem len entry fuel (p + len p) true
            (insnReads len p ++ (p + 1) :: p :: acc)
        else
          find_floatcall_go mem len entry fuel (p + len p) nextcall
            (insnReads len p ++ (p + 1) :: p :: acc)
      else if nextcall ∧ mem p = X86_CALL then
        (some (callTarget mem len p),
          (p + 4) :: (p + 3) :: (p + 2) :: (p + 1) :: (insnReads len p ++ p :: acc))
      else
        find_floatcall_go mem len entry fuel (p + len p) nextcall
          (insnReads len p ++ p :: acc)
    else (none, acc)

/-- `find_floatcall` (fastforward.c lines 75-88): scan forward from
`entry` for at most 384 stream bytes; arm on an FLD-family instruction
(`X86_FLTBLK2` with ModRM reg field 0), and resolve the next near
relative call once armed.  The first component is the returned address
(`none` = `NULL`), the second the instrumented read footprint.  384 units
of fuel are exact: with walker lengths ≥ 1 the loop performs at most 384
iterations. -/
def find_floatcall (mem len : Nat → Nat) (entry : Nat) : Option Nat × List Nat :=
  find_floatcall_go mem len entry 384 entry false []

/-- Address of the instruction reached after `k` walk steps from `entry`. -/
def walkPos (len : Nat → Nat) (entry : Nat) : Nat → Nat
  | 0 => entry
  | k + 1 => walkPos len entry k + len (walkPos len entry k)

/-- The arming condition of `find_floatcall`: an FLD-block opcode whose
ModRM reg field is 0 (`FLD m32`). -/
def armByte (mem : Nat → Nat) (p : Nat) : Prop :=
  mem p = X86_FLTBLK2 ∧ mem (p + 1) &&& 0x38 = 0

instance (mem : Nat → Nat) (p : Nat) : Decidable (armByte mem p) := by
  unfold armByte; infer_instance

/-- Scan loop of the `eng` global search (fastforward.c lines 107-115):
within a 32-byte window from the entry, look for
`mov ecx, dword ptr [disp32]` (`X86_MOVRMW` with ModRM `X86_MODRM 0 1 5`);
on a match, load the embedded pointer and dereference it
(`eng = *indirect`), yielding the `eng` object address. -/
def engScan_go (mem len : Nat → Nat) (entry : Nat) : Nat → Nat → Option Nat
  | 0, _ => none
  | fuel + 1, p =>
    if p < entry + 32 then
      if mem p = X86_MOVRMW ∧ mem (p + 1) = X86_MODRM 0 1 5 then
        some (load32 mem (load32 mem (p + 2)))
      else engScan_go mem len entry fuel (p + len p)
    else none

/-- Scan loop for `HostState_Frame` (fastforward.c lines 128-138): arm on
`cmp r/m, 2` (`X86_ALUMI8S`, ModRM reg field 7, immediate byte 2), then
resolve the next near relative call. -/
def cmpCallScan_go (mem len : Nat → Nat) (entry : Nat) :
    Nat → Nat → Bool → Option Nat
  | 0, _, _ => none
  | fuel + 1, p, nextcall =>
    if p < entry + 384 then
      if mem p = X86_ALUMI8S ∧ mem (p + 1) &&& 0x38 = X86_MODRM 0 7 0 ∧
          mem (p + 2) = 2 then
        cmpCallScan_go mem len entry fuel (p + len p) true
      else if nextcall ∧ mem p = X86_CALL then some (callTarget mem len p)
      else cmpCallScan_go mem len entry fuel (p + len p) nextcall
    else none

/-- Scan loop for `CHostState::FrameUpdate` (fastforward.c lines 149-157):
resolve the first near relative call in the window. -/
def firstCallScan_go (mem len : Nat → Nat) (entry : Nat) : Nat → Nat → Option Nat
  | 0, _ => none
  | fuel + 1, p =>
    if p < entry + 384 then
      if mem p = X86_CALL then some (callTarget mem len p)
      else firstCallScan_go mem len entry fuel (p + len p)
    else none

/-- Scan loop for `Host_AccumulateTime` itself (fastforward.c lines
186-196): arm on `fld dword ptr [ebp+8]` (`X86_FLTBLK2`, ModRM
`X86_MODRM 1 0 5`, displacement byte 8), then resolve the next call. -/
def hatScan_go (mem len : Nat → Nat) (entry : Nat) : Nat → Nat → Bool → Option Nat
  | 0, _, _ => none
  | fuel + 1, p, nextcall =>
    if p < entry + 384 then
      if mem p = X86_FLTBLK2 ∧ mem (p + 1) = X86_MODRM 1 0 5 ∧ mem (p + 2) = 8 then
        hatScan_go mem len entry fuel (p + len p) true
      else if nextcall ∧ mem p = X86_CALL then some (callTarget mem len p)
      else hatScan_go mem len entry fuel (p + len p) nextcall
    else none

/-- `(*obj)[idx]`: virtual-table slot read through a `void ***`. -/
def vslot (mem : Nat → Nat) (obj idx : Nat) : Nat :=
  load32 mem (load32 mem obj + 4 * idx)

/-- Environment of the initialization code: the byte memory, the walker
oracle, the two interface-factory lookups (`none` = the factory returned
`NULL`), and the externally configured vtable slot indices. -/
structure Env where
  mem : Nat → Nat
  len : Nat → Nat
  hldsapi : Option Nat
  enginetool : Option Nat
  vtidx_RunFrame : Nat
  vtidx_Frame : Nat
  vtidx_GetRealTime : Nat
  vtidx_HostFrameTime : Nat

/-- Outcome of `find_Host_AccumulateTime`: found address, clean failure
(`return false`), or a dereference of a null handle (undefined behavior
in the C source, modelled as a distinguished crash outcome). -/
inductive FHOut where
  | ok : Nat → FHOut
  | fail : FHOut
  | crash : FHOut
deriving DecidableEq

/-- `find_Host_AccumulateTime` (fastforward.c lines 91-202).  Returns the
list of error messages passed to `errmsg_errorx`, paired with the
outcome.  Note the C source reports "missing hlds api interface" without
returning, then dereferences the null `hldsapi` handle: that path is the
`crash` outcome.  Each located intermediate address is null-checked
exactly as the C does (`if (!x)` — a scan that resolves to address 0 is
also treated as a failure). -/
def find_Host_AccumulateTime (e : Env) : List String × FHOut :=
  match e.hldsapi with
  | none => (["missing hlds api interface"], .crash)
  | some hldsapi =>
    let runframe := vslot e.mem hldsapi e.vtidx_RunFrame
    let eng := (engScan_go e.mem e.len runframe 32 runframe).getD 0
    if eng = 0 then (["couldn\x27t find eng global object"], .fail)
    else
      let frame := vslot e.mem eng e.vtidx_Frame
      let hoststate_frame := (cmpCallScan_go e.mem e.len frame 384 frame false).getD 0
      if hoststate_frame = 0 then (["couldn\x27t find HostState_Frame"], .fail)
      else
        let frameupdate :=
          (firstCallScan_go e.mem e.len hoststate_frame 384 hoststate_frame).getD 0
        if frameupdate = 0 then (["couldn\x27t find frameupdate"], .fail)
        else
          let state_run := (find_floatcall e.mem e.len frameupdate).1.getD 0
          if state_run = 0 then (["couldn\x27t find State_Run"], .fail)
          else
            let host_runframe := (find_floatcall e.mem e.len state_run).1.getD 0
            if host_runframe = 0 then (["couldn\x27t find Host_RunFrame"], .fail)
            else
              let h_runframe := (find_floatcall e.mem e.len host_runframe).1.getD 0
              if h_runframe = 0 then (["couldn\x27t find _Host_RunFrame"], .fail)
              else
                let hat := (hatScan_go e.mem e.len h_runframe 384 h_runframe false).getD 0
                if hat = 0 then (["couldn\x27t find Host_AccumulateTime"], .fail)
                else ([], .ok hat)

/-- Result state of a successful `INIT`: the two extracted global-float
addresses exactly as `floatgetter` produced them (`none` = the extractor
returned `NULL`), and the address the inline hook was installed at. -/
structure InitState where
  realtime : Option Nat
  host_frametime : Option Nat
  hooked : Option Nat
deriving DecidableEq

/-- Outcome of `INIT`. -/
inductive InitOut where
  | ok : InitState → InitOut
  | fail : InitOut
  | crash : InitOut
deriving DecidableEq

/-- `INIT` (fastforward.c lines 208-224): look up the engine-tool
interface (failing cleanly when absent), run `floatgetter` on the two
accessor vtable slots **without checking the results**, run
`find_Host_AccumulateTime`, and on success install the inline hook.
Returns the emitted error messages and the outcome. -/
def INIT (e : Env) : List String × InitOut :=
  match e.enginetool with
  | none => (["missing engine tool interface"], .fail)
  | some enginetool =>
    let realtime := floatgetter e.mem (vslot e.mem enginetool e.vtidx_GetRealTime)
    let host_frametime :=
      floatgetter e.mem (vslot e.mem enginetool e.vtidx_HostFrameTime)
    match find_Host_AccumulateTime e with
    | (errs, .crash) => (errs, .crash)
    | (errs, .fail) => (errs ++ ["couldn\x27t find Host_Accumulate"], .fail)
    | (errs, .ok hat) => (errs, .ok ⟨realtime, host_frametime, some hat⟩)

/-! ### Inline hook engine

Modelled from the spec: `hook_inline` / `unhook_inline` live in `hook.h`
/ `hook.c`, which are not among the available repository sources (only
the call sites in fastforward.c are).  Spec section 4.5 describes them:
install reads and retains the original bytes at the target for at least
the length of the transfer-of-control sequence (rounded up to whole
instructions via the Walker), overwrites the entry with an unconditional
transfer to the replacement, and marks the record installed; uninstall
restores the exact retained bytes and is a no-op on an already
uninstalled record. -/

/-- Modelled from the spec: the per-target hook record of section 4.5 —
target address, retained original bytes, installed flag. -/
structure HookRecord where
  target : Nat
  origBytes : List Nat
  installed : Bool

/-- Modelled from the spec: encoding of the unconditional transfer of
control written at the hook target (a 5-byte near jump with 32-bit
relative displacement to `dst`, computed mod 2^32). -/
def jmpRel32 (src dst : Nat) : List Nat :=
  0xe9 :: le32 ((dst + 4294967296 - (src + 5) % 4294967296) % 4294967296)

/-- Modelled from the spec: number of bytes retained by `install` —
whole instruction lengths (per the Walker oracle) accumulated until they
cover the 5-byte transfer sequence. -/
def patchLen_go (len : Nat → Nat) : Nat → Nat → Nat → Nat
  | 0, _, acc => acc
  | fuel + 1, p, acc =>
    if 5 ≤ acc then acc else patchLen_go len fuel (p + len p) (acc + len p)

/-- Modelled from the spec: retained byte count at `target` (5 steps of
fuel suffice for walker lengths ≥ 1). -/
def patchLen (len : Nat → Nat) (target : Nat) : Nat :=
  patchLen_go len 5 target 0

/-- Modelled from the spec: `install(target, replacement)` — retain the
original bytes, write the transfer sequence, return the patched memory
and an installed record. -/
def hook_inline (mem len : Nat → Nat) (target repl : Nat) :
    (Nat → Nat) × HookRecord :=
  let n := patchLen len target
  (storeBytes mem target (jmpRel32 target repl),
    ⟨target, readBytes mem target n, true⟩)

/-- Modelled from the spec: `uninstall(record)` — restore the retained
bytes and mark the record uninstalled; a no-op when already
uninstalled. -/
def unhook_inline (mem : Nat → Nat) (r : HookRecord) :
    (Nat → Nat) × HookRecord :=
  if r.installed then
    (storeBytes mem r.target r.origBytes, ⟨r.target, r.origBytes, false⟩)
  else (mem, r)

/-! ### The skip-request state machine -/

/-- The three float globals of fastforward.c: the pending skip request
`skiptime` (line 46) and the two located engine scalars `realtime` and
`host_frametime` (lines 43-44), modelled over `Rat`. -/
structure FFState where
  skiptime : Rat
  realtime : Rat
  host_frametime : Rat
deriving DecidableEq

/-- `hook_Host_AccumulateTime` (fastforward.c lines 47-55).  `orig` is
the original engine function, an oracle acting on the pair
(realtime, host_frametime); the returned list holds the `dt` arguments
passed through to `orig` (empty = the original was never called).
When `skiptime > 0`, both scalars get the skip amount added and the
pending amount is zeroed; otherwise the call is delegated unchanged. -/
def hook_Host_AccumulateTime (orig : Rat → Rat × Rat → Rat × Rat) (dt : Rat)
    (s : FFState) : FFState × List Rat :=
  if 0 < s.skiptime then
    (⟨0, s.realtime + s.skiptime, s.host_frametime + s.skiptime⟩, [])
  else
    (⟨s.skiptime, (orig dt (s.realtime, s.host_frametime)).1,
      (orig dt (s.realtime, s.host_frametime)).2⟩, [dt])

/-- `sst_fastforward` (fastforward.c lines 57-63).  `atofQ` is the C
library `atof` modelled as an oracle on the argument string; `argv` is
the full argument vector including the command name (`cmd->argc` is its
length).  Returns the new state and the warnings printed via `con_warn`.
With any argument count other than 2, only the usage message is printed
and the state is untouched; otherwise `skiptime` is overwritten with the
parsed value. -/
def sst_fastforward (atofQ : String → Rat) (argv : List String)
    (s : FFState) : FFState × List String :=
  if argv.length ≠ 2 then (s, ["usage: sst_fastforward <time>"])
  else (⟨atofQ (argv.getD 1 ""), s.realtime, s.host_frametime⟩, [])

/-! ### A concrete synthetic binary

A small synthetic memory image on which the whole locate chain succeeds:
the hlds-api vtable leads to a `RunFrame` whose first instruction loads
the `eng` this-pointer, `eng`'s vtable leads to a `Frame` containing the
`cmp …, 2` / call pair, and so on down to `Host_AccumulateTime` at
address 0x900.  The engine-tool vtable exposes two accessors: slot 0
(`GetRealTime`) starts with a byte that is not an FLD — its shape is
unsupported — while slot 1 (`HostFrameTime`) is a well-formed
`fld dword ptr [0xabcdef]`. -/

/-- Synthetic byte memory for the concrete initialization runs. -/
def demoMem : Nat → Nat :=
  storeBytes (storeBytes (storeBytes (storeBytes (storeBytes (storeBytes
  (storeBytes (storeBytes (storeBytes (storeBytes (storeBytes (storeBytes
  (storeBytes (storeBytes (storeBytes (storeBytes (storeBytes (storeBytes
  (storeBytes (storeBytes (fun _ => 0xcc)
    0x100 (le32 0x110))
    0x110 (le32 0x200))
    0x200 ([0x8b, 0x0d] ++ le32 0x120))
    0x120 (le32 0x130))
    0x130 (le32 0x140))
    0x140 (le32 0x300))
    0x300 [0x83, 0xf8, 0x02])
    0x303 (0xe8 :: le32 0xf8))
    0x400 (0xe8 :: le32 0xfb))
    0x500 ([0xd9, 0x05] ++ le32 0))
    0x506 (0xe8 :: le32 0xf5))
    0x600 ([0xd9, 0x05] ++ le32 0))
    0x606 (0xe8 :: le32 0xf5))
    0x700 ([0xd9, 0x05] ++ le32 0))
    0x706 (0xe8 :: le32 0xf5))
    0x800 [0xd9, 0x45, 0x08])
    0x803 (0xe8 :: le32 0xf8))
    0x180 (le32 0x190))
    0x190 (le32 0xa00 ++ le32 0xa10))
    0xa10 ([0xd9, 0x05] ++ le32 0xabcdef)

/-- Walker oracle matching `demoMem`'s instruction layout. -/
def demoLen : Nat → Nat := fun p =>
  if p = 0x300 ∨ p = 0x800 then 3
  else if p = 0x500 ∨ p = 0x600 ∨ p = 0x700 then 6
  else if p = 0x303 ∨ p = 0x400 ∨ p = 0x506 ∨ p = 0x606 ∨ p = 0x706 ∨ p = 0x803
    then 5
  else 1

/-- The environment used for the concrete initialization runs: both
interfaces present, vtable slot indices 0/0/0/1. -/
def demoEnv : Env :=
  ⟨demoMem, demoLen, some 0x100, some 0x180, 0, 0, 0, 1⟩

/-- `demoEnv` with the hlds-api factory lookup returning `NULL`. -/
def demoEnvNoHlds : Env :=
  ⟨demoMem, demoLen, none, some 0x180, 0, 0, 0, 1⟩

/-- `demoEnv` with the engine-tool factory lookup returning `NULL`. -/
def demoEnvNoTool : Env :=
  ⟨demoMem, demoLen, some 0x100, none, 0, 0, 0, 1⟩

/-- A concrete stand-in for the original `Host_AccumulateTime`: ordinary
time accumulation on both scalars. -/
def demoOrig : Rat → Rat × Rat → Rat × Rat := fun d p => (p.1 + d, p.2 + d)

/-- A concrete stand-in for `atof` on the few strings the witnesses use. -/
def demoAtof : String → Rat := fun a =>
  if a = "3" then 3 else if a = "-1" then -1 else 7

/-- Witness stream for the locator: an `FLD` arming instruction of
length 2 at offset 0, then a confirming call at offset 2 with
displacement 0x10. -/
def armMem : Nat → Nat :=
  storeBytes (fun _ => 0x90) 0 [0xd9, 0x05, 0xe8, 0x10, 0x00, 0x00, 0x00]

/-- Walker oracle for `armMem`. -/
def armLen : Nat → Nat := fun p => if p = 0 then 2 else if p = 2 then 5 else 1

/-- A stream of one-byte instructions containing no call at all. -/
def nopMem : Nat → Nat := fun _ => 0x90

/-- Walker oracle for `nopMem`. -/
def nopLen : Nat → Nat := fun _ => 1

/-- Stream whose last in-window byte (offset 383) is an FLD-block
opcode: evaluating the arming test there reads offset 384. -/
def edgeMem : Nat → Nat := fun x => if x = 383 then 0xd9 else 0x90

/-- Walker oracle for `edgeMem` (the FLD at 383 is six bytes long). -/
def edgeLen : Nat → Nat := fun p => if p = 383 then 6 else 1

/-! ## Theorems -/

/-- Claim C2: a byte sequence whose first instruction is
`FLD dword ptr [disp32]` (opcode `X86_FLTBLK2` with ModRM `0x05`) with
embedded absolute operand `D` makes `floatgetter` return exactly `D`;
any other first opcode or addressing mode yields no value; and the
end-to-end accessor `fld dword ptr [0x00abcdef]; ret` yields
`0x00abcdef`. -/
theorem floatgetter_spec :
    (∀ (mem : Nat → Nat) (fn D : Nat), mem fn = X86_FLTBLK2 →
      mem (fn + 1) = 0x05 → load32 mem (fn + 2) = D →
      floatgetter mem fn = some D) ∧
    (∀ (mem : Nat → Nat) (fn : Nat),
      mem fn ≠ X86_FLTBLK2 ∨ mem (fn + 1) ≠ 0x05 →
      floatgetter mem fn = none) ∧
    floatgetter
      (storeBytes (fun _ => 0xcc) 0 ([0xd9, 0x05] ++ le32 0xabcdef ++ [0xc3])) 0 =
      some 0xabcdef := by
  refine ⟨?_, ?_, by decide⟩
  · intro mem fn D h1 h2 h3
    unfold floatgetter
    rw [if_neg, h3]
    simp [h1, h2]
  · intro mem fn h
    unfold floatgetter
    rw [if_pos h]

/-- Witness for C2: the two accessor shapes of the synthetic binary —
slot 1 is a well-formed accessor for `0xabcdef`, slot 0 has an
unsupported first opcode. -/
theorem floatgetter_spec_witness :
    floatgetter demoMem 0xa10 = some 0xabcdef ∧ floatgetter demoMem 0xa00 = none :=
  ⟨floatgetter_spec.1 demoMem 0xa10 0xabcdef (by decide) (by decide) (by decide),
   floatgetter_spec.2.1 demoMem 0xa00 (Or.inl (by decide))⟩

/-- Claim C3 (code bug): `INIT` never checks the results of the two
`floatgetter` calls.  On this concrete environment the realtime accessor
has an unsupported shape (`floatgetter` returns no value), yet `INIT`
still succeeds, installs the hook at `0x900`, reports nothing, and
leaves the realtime pointer null — contradicting the claim that
initialization must report failure, return false and install no hook. -/
theorem INIT_ignores_failed_floatgetter :
    floatgetter demoMem (vslot demoMem 0x180 0) = none ∧
    INIT demoEnv = ([], .ok ⟨none, some 0xabcdef, some 0x900⟩) :=
  ⟨by decide, by decide⟩

/-- Claim C4 (code bug): the engine-tool lookup failure is handled
cleanly (error reported, clean failure, no hook), but the hlds-api
lookup failure only reports the error and then dereferences the null
handle (`runframe = (*hldsapi)[vtidx_RunFrame]` with `hldsapi == NULL`)
instead of returning — modelled as the `crash` outcome. -/
theorem missing_interface_outcomes :
    INIT demoEnvNoTool = (["missing engine tool interface"], .fail) ∧
    find_Host_AccumulateTime demoEnvNoHlds =
      (["missing hlds api interface"], .crash) ∧
    INIT demoEnvNoHlds = (["missing hlds api interface"], .crash) :=
  ⟨by decide, by decide, by decide⟩

/-- Claim C5 (amended to strictly positive requests): after the command
sets a skip request with positive parsed value, the next hook invocation
adds that value to both tracked scalars exactly once, zeroes the pending
amount and never calls the original; a second consecutive invocation
applies nothing further from the request — it is pure delegation to the
original function. -/
theorem skiprequest_consumed_once_pos (atofQ : String → Rat)
    (orig : Rat → Rat × Rat → Rat × Rat) (s : FFState) (a : String)
    (dt dt' : Rat) (hV : 0 < atofQ a) :
    hook_Host_AccumulateTime orig dt
        (sst_fastforward atofQ ["sst_fastforward", a] s).1 =
      (⟨0, s.realtime + atofQ a, s.host_frametime + atofQ a⟩, []) ∧
    hook_Host_AccumulateTime orig dt'
        ⟨0, s.realtime + atofQ a, s.host_frametime + atofQ a⟩ =
      (⟨0, (orig dt' (s.realtime + atofQ a, s.host_frametime + atofQ a)).1,
        (orig dt' (s.realtime + atofQ a, s.host_frametime + atofQ a)).2⟩,
        [dt']) := by
  constructor
  · simp [sst_fastforward, hook_Host_AccumulateTime, hV]
  · simp [hook_Host_AccumulateTime]

/-- Witness for C5 (amended): a concrete run with request 3. -/
theorem skiprequest_consumed_once_pos_witness :
    hook_Host_AccumulateTime demoOrig 1
        (sst_fastforward demoAtof ["sst_fastforward", "3"] ⟨0, 10, 20⟩).1 =
      (⟨0, 10 + demoAtof "3", 20 + demoAtof "3"⟩, []) ∧
    hook_Host_AccumulateTime demoOrig 2
        ⟨0, 10 + demoAtof "3", 20 + demoAtof "3"⟩ =
      (⟨0, (demoOrig 2 (10 + demoAtof "3", 20 + demoAtof "3")).1,
        (demoOrig 2 (10 + demoAtof "3", 20 + demoAtof "3")).2⟩, [2]) :=
  skiprequest_consumed_once_pos demoAtof demoOrig ⟨0, 10, 20⟩ "3" 1 2 (by decide)

/-- Counterexample to C5 as stated ("for every value V"): after a skip
request of −1, the next hook invocation does not reset the pending
amount to zero — it stays −1 (and the original function is called
instead). -/
theorem skiprequest_negative_not_cleared :
    (hook_Host_AccumulateTime demoOrig 5
        (sst_fastforward demoAtof ["sst_fastforward", "-1"] ⟨0, 0, 0⟩).1).1.skiptime
      = -1 ∧ (-1 : Rat) ≠ 0 :=
  ⟨by decide, by decide⟩

/-- Claim C7: a second `sst_fastforward` before any consumption
overwrites the first request — the pending amount is the second parsed
value, independent of the first. -/
theorem sst_fastforward_overwrites (atofQ : String → Rat) (s : FFState)
    (a1 a2 : String) :
    ((sst_fastforward atofQ ["sst_fastforward", a2]
        (sst_fastforward atofQ ["sst_fastforward", a1] s).1).1).skiptime =
      atofQ a2 := by
  simp [sst_fastforward]

/-- Witness for C7: setting 3 then 7 leaves a pending amount of 7. -/
theorem sst_fastforward_overwrites_witness :
    ((sst_fastforward demoAtof ["sst_fastforward", "7"]
        (sst_fastforward demoAtof ["sst_fastforward", "3"] ⟨0, 0, 0⟩).1).1).skiptime
      = 7 := by
  have h := sst_fastforward_overwrites demoAtof ⟨0, 0, 0⟩ "3" "7"
  simpa [demoAtof] using h

/-- Claim C8: with any argument count other than 2 (command name plus
one argument) the command prints exactly the usage message and leaves
the whole state — in particular the pending skip request — unchanged;
with exactly one argument it sets the request to the parsed decimal
value and prints nothing. -/
theorem sst_fastforward_usage :
    (∀ (atofQ : String → Rat) (argv : List String) (s : FFState),
      argv.length ≠ 2 →
      sst_fastforward atofQ argv s = (s, ["usage: sst_fastforward <time>"])) ∧
    (∀ (atofQ : String → Rat) (a : String) (s : FFState),
      sst_fastforward atofQ ["sst_fastforward", a] s =
        (⟨atofQ a, s.realtime, s.host_frametime⟩, [])) := by
  constructor
  · intro atofQ argv s h
    simp [sst_fastforward, h]
  · intro atofQ a s
    simp [sst_fastforward]

/-- Witness for C8: zero arguments gives the usage message and no state
change; one argument sets the request. -/
theorem sst_fastforward_usage_witness :
    sst_fastforward demoAtof ["sst_fastforward"] ⟨1, 2, 3⟩ =
      (⟨1, 2, 3⟩, ["usage: sst_fastforward <time>"]) ∧
    sst_fastforward demoAtof ["sst_fastforward", "3"] ⟨1, 2, 3⟩ =
      (⟨demoAtof "3", 2, 3⟩, []) :=
  ⟨sst_fastforward_usage.1 demoAtof ["sst_fastforward"] ⟨1, 2, 3⟩ (by decide),
   sst_fastforward_usage.2 demoAtof "3" ⟨1, 2, 3⟩⟩

/-- Claim C9: whenever a pending skip is strictly positive, the hook
applies it to both scalars and returns without calling the original
function at all (the call list is empty) — the result is independent of
the caller-supplied `dt` and of the original function. -/
theorem hook_skips_original_when_pending (orig : Rat → Rat × Rat → Rat × Rat)
    (dt : Rat) (s : FFState) (h : 0 < s.skiptime) :
    hook_Host_AccumulateTime orig dt s =
      (⟨0, s.realtime + s.skiptime, s.host_frametime + s.skiptime⟩, []) := by
  simp [hook_Host_AccumulateTime, h]

/-- Witness for C9: a concrete skipping invocation. -/
theorem hook_skips_original_when_pending_witness :
    hook_Host_AccumulateTime demoOrig 42 ⟨2, 10, 20⟩ = (⟨0, 12, 22⟩, []) := by
  have h := hook_skips_original_when_pending demoOrig 42 ⟨2, 10, 20⟩ (by decide)
  rw [h]
  norm_num

/-- Claim C10: with a non-positive pending amount the hook is pure
delegation — the original function is called exactly once with the
caller's `dt`, the pending amount is not consumed or cleared, and the
hook adds nothing of its own to the two scalars (they carry exactly the
original function's effect). -/
theorem hook_delegates_when_nonpositive (orig : Rat → Rat × Rat → Rat × Rat)
    (dt : Rat) (s : FFState) (h : s.skiptime ≤ 0) :
    hook_Host_AccumulateTime orig dt s =
      (⟨s.skiptime, (orig dt (s.realtime, s.host_frametime)).1,
        (orig dt (s.realtime, s.host_frametime)).2⟩, [dt]) := by
  simp [hook_Host_AccumulateTime, not_lt.mpr h]

/-- Witness for C10: a concrete delegating invocation with pending −1. -/
theorem hook_delegates_when_nonpositive_witness :
    hook_Host_AccumulateTime demoOrig 4 ⟨-1, 10, 20⟩ = (⟨-1, 14, 24⟩, [4]) := by
  have h := hook_delegates_when_nonpositive demoOrig 4 ⟨-1, 10, 20⟩ (by decide)
  rw [h]
  norm_num [demoOrig]

/-! ### Byte-store lemmas for the hook round trip -/

theorem storeBytes_apply (bs : List Nat) (mem : Nat → Nat) (a x : Nat) :
    storeBytes mem a bs x =
      if a ≤ x ∧ x < a + bs.length then bs.getD (x - a) 0 else mem x := by
  induction bs generalizing mem a with
  | nil => rw [storeBytes, if_neg (by simp only [List.length_nil]; omega)]
  | cons b bs ih =>
    rw [storeBytes, ih]
    by_cases hxa : x = a
    · subst hxa
      rw [if_neg (by omega)]
      show (if x = x then b else mem x) = _
      rw [if_pos rfl, if_pos ⟨Nat.le_refl x, by simp only [List.length_cons]; omega⟩]
      simp
    · by_cases hin : a + 1 ≤ x ∧ x < a + 1 + bs.length
      · rw [if_pos hin,
          if_pos ⟨by omega, by simp only [List.length_cons]; omega⟩]
        obtain ⟨d, hd⟩ : ∃ d, x - a = d + 1 := ⟨x - a - 1, by omega⟩
        rw [hd]
        simp only [List.getD_cons_succ]
        congr 1
        omega
      · rw [if_neg hin]
        show (if x = a then b else mem x) = _
        rw [if_neg hxa, if_neg (by simp only [List.length_cons]; omega)]

theorem readBytes_length (mem : Nat → Nat) (a n : Nat) :
    (readBytes mem a n).length = n := by
  simp [readBytes]

theorem readBytes_getD (mem : Nat → Nat) (a n i : Nat) (h : i < n) :
    (readBytes mem a n).getD i 0 = mem (a + i) := by
  rw [readBytes, List.getD_eq_getElem?_getD]
  simp [List.getElem?_map, List.getElem?_range, h]

/-- Restoring previously read bytes over any write of at most the same
extent recovers the original memory. -/
theorem storeBytes_restore (mem : Nat → Nat) (a n : Nat) (ws : List Nat)
    (h : ws.length ≤ n) :
    storeBytes (storeBytes mem a ws) a (readBytes mem a n) = mem := by
  funext x
  rw [storeBytes_apply, readBytes_length]
  by_cases hx : a ≤ x ∧ x < a + n
  · rw [if_pos hx, readBytes_getD mem a n (x - a) (by omega)]
    congr 1
    omega
  · rw [if_neg hx, storeBytes_apply, if_neg (by omega)]

theorem jmpRel32_length (src dst : Nat) : (jmpRel32 src dst).length = 5 := by
  simp [jmpRel32, le32]

theorem patchLen_go_ge (len : Nat → Nat) (hlen : ∀ q, 1 ≤ len q) :
    ∀ fuel p acc, 5 ≤ acc + fuel → 5 ≤ patchLen_go len fuel p acc := by
  intro fuel
  induction fuel with
  | zero => intro p acc h; rw [patchLen_go]; omega
  | succ f ih =>
    intro p acc h
    rw [patchLen_go]
    split
    · assumption
    · exact ih (p + len p) (acc + len p) (by have := hlen p; omega)

theorem patchLen_ge (len : Nat → Nat) (hlen : ∀ q, 1 ≤ len q) (target : Nat) :
    5 ≤ patchLen len target :=
  patchLen_go_ge len hlen 5 target 0 (by omega)

/-- Uninstalling an already-uninstalled record is a no-op. -/
theorem unhook_inline_uninstalled (mem : Nat → Nat) (r : HookRecord)
    (h : r.installed = false) : unhook_inline mem r = (mem, r) := by
  rw [unhook_inline, if_neg (by simp [h])]

/-- Claim C6: installing the inline hook and uninstalling it restores
the target memory bit for bit, marks the record uninstalled, and a
second uninstall on the already-uninstalled record changes nothing. -/
theorem hook_inline_roundtrip (mem len : Nat → Nat) (target repl : Nat)
    (hlen : ∀ q, 1 ≤ len q) :
    (unhook_inline (hook_inline mem len target repl).1
        (hook_inline mem len target repl).2).1 = mem ∧
    (unhook_inline (hook_inline mem len target repl).1
        (hook_inline mem len target repl).2).2.installed = false ∧
    unhook_inline
        (unhook_inline (hook_inline mem len target repl).1
          (hook_inline mem len target repl).2).1
        (unhook_inline (hook_inline mem len target repl).1
          (hook_inline mem len target repl).2).2 =
      unhook_inline (hook_inline mem len target repl).1
        (hook_inline mem len target repl).2 := by
  have hrt : (unhook_inline (hook_inline mem len target repl).1
      (hook_inline mem len target repl).2).1 = mem := by
    show (unhook_inline (storeBytes mem target (jmpRel32 target repl))
      ⟨target, readBytes mem target (patchLen len target), true⟩).1 = mem
    rw [unhook_inline, if_pos rfl]
    exact storeBytes_restore mem target (patchLen len target)
      (jmpRel32 target repl)
      (by rw [jmpRel32_length]; exact patchLen_ge len hlen target)
  have hrec : (unhook_inline (hook_inline mem len target repl).1
      (hook_inline mem len target repl).2).2 =
      ⟨target, readBytes mem target (patchLen len target), false⟩ := rfl
  exact ⟨hrt, by rw [hrec], unhook_inline_uninstalled _ _ (by rw [hrec])⟩

/-- Witness for C6: a concrete round trip at target 100. -/
theorem hook_inline_roundtrip_witness :
    (unhook_inline (hook_inline (fun x => x % 256) (fun _ => 1) 100 200).1
        (hook_inline (fun x => x % 256) (fun _ => 1) 100 200).2).1 =
      (fun x => x % 256) :=
  (hook_inline_roundtrip (fun x => x % 256) (fun _ => 1) 100 200
    (fun _ => Nat.le_refl 1)).1

/-! ### Locator lemmas (claim C1) -/

theorem walkPos_le (len : Nat → Nat) (entry : Nat) (hlen : ∀ q, 1 ≤ len q) :
    ∀ k, entry + k ≤ walkPos len entry k := by
  intro k
  induction k with
  | zero => simp [walkPos]
  | succ n ih =>
    rw [walkPos]
    have := hlen (walkPos len entry n)
    omega

theorem walkPos_strictMono (len : Nat → Nat) (entry : Nat)
    (hlen : ∀ q, 1 ≤ len q) : StrictMono (walkPos len entry) :=
  strictMono_nat_of_lt_succ fun k => by
    rw [walkPos]
    have := hlen (walkPos len entry k)
    omega

/-- Each byte of `load32` contributes less than 2^32 in total. -/
theorem load32_lt (mem : Nat → Nat) (a : Nat) : load32 mem a < 4294967296 := by
  unfold load32
  have h0 : mem a % 256 < 256 := Nat.mod_lt _ (by omega)
  have h1 : mem (a + 1) % 256 < 256 := Nat.mod_lt _ (by omega)
  have h2 : mem (a + 2) % 256 < 256 := Nat.mod_lt _ (by omega)
  have h3 : mem (a + 3) % 256 < 256 := Nat.mod_lt _ (by omega)
  omega

/-- The 32-bit wrapped call target agrees with the signed reading
`A + L + R` whenever that value lies in the 32-bit address range. -/
theorem callTarget_signed (mem len : Nat → Nat) (p : Nat)
    (h0 : 0 ≤ (p : Int) + len p + toSigned32 (load32 mem (p + 1)))
    (h1 : (p : Int) + len p + toSigned32 (load32 mem (p + 1)) < 4294967296) :
    (callTarget mem len p : Int) =
      (p : Int) + len p + toSigned32 (load32 mem (p + 1)) := by
  have hlt := load32_lt mem (p + 1)
  unfold callTarget
  unfold toSigned32 at *
  split at h0 <;> push_cast <;> omega

/-- Armed phase of the scan: once `nextcall` is set, the first
in-window near call resolves and returns its target. -/
theorem ffc_go_armed (mem len : Nat → Nat) (entry : Nat)
    (hlen : ∀ q, 1 ≤ len q) (kj : Nat)
    (hwin : walkPos len entry kj < entry + 384)
    (hcall : mem (walkPos len entry kj) = X86_CALL) :
    ∀ fuel k acc, k ≤ kj → kj - k < fuel →
      (∀ m, k ≤ m → m < kj → mem (walkPos len entry m) ≠ X86_CALL) →
      (find_floatcall_go mem len entry fuel (walkPos len entry k) true acc).1 =
        some (callTarget mem len (walkPos len entry kj)) := by
  intro fuel
  induction fuel with
  | zero => intro k acc _ h2 _; omega
  | succ f ih =>
    intro k acc hk hf hbet
    have hpos : walkPos len entry k < entry + 384 :=
      lt_of_le_of_lt ((walkPos_strictMono len entry hlen).monotone hk) hwin
    rw [find_floatcall_go, if_pos hpos]
    by_cases hkkj : k = kj
    · subst hkkj
      rw [hcall]
      rw [if_neg (by decide), if_pos ⟨rfl, rfl⟩]
    · have hk' : k < kj := lt_of_le_of_ne hk hkkj
      have hnc : mem (walkPos len entry k) ≠ X86_CALL := hbet k le_rfl hk'
      have step :
          walkPos len entry k + len (walkPos len entry k) =
            walkPos len entry (k + 1) := rfl
      by_cases hd9 : mem (walkPos len entry k) = X86_FLTBLK2
      · rw [if_pos hd9]
        by_cases hreg : mem (walkPos len entry k + 1) &&& 0x38 = 0
        · rw [if_pos hreg, step]
          exact ih (k + 1) _ hk' (by omega) fun m hm1 hm2 => hbet m (by omega) hm2
        · rw [if_neg hreg, step]
          exact ih (k + 1) _ hk' (by omega) fun m hm1 hm2 => hbet m (by omega) hm2
      · rw [if_neg hd9, if_neg (fun h => hnc h.2), step]
        exact ih (k + 1) _ hk' (by omega) fun m hm1 hm2 => hbet m (by omega) hm2

/-- Pre-arm phase: with no arming instruction seen yet the scan reaches
the first arming instruction and then behaves as the armed phase. -/
theorem ffc_go_prearm (mem len : Nat → Nat) (entry : Nat)
    (hlen : ∀ q, 1 ≤ len q) (ki kj : Nat)
    (hwin : walkPos len entry kj < entry + 384)
    (hcall : mem (walkPos len entry kj) = X86_CALL)
    (harm : armByte mem (walkPos len entry ki)) (hij : ki < kj)
    (hbet : ∀ m, ki < m → m < kj → mem (walkPos len entry m) ≠ X86_CALL)
    (hpre : ∀ m, m < ki → ¬ armByte mem (walkPos len entry m)) :
    ∀ fuel k acc, k ≤ ki → kj - k < fuel →
      (find_floatcall_go mem len entry fuel (walkPos len entry k) false acc).1 =
        some (callTarget mem len (walkPos len entry kj)) := by
  intro fuel
  induction fuel with
  | zero => intro k acc h1 h2; omega
  | succ f ih =>
    intro k acc hk hf
    have hpos : walkPos len entry k < entry + 384 :=
      lt_of_le_of_lt
        ((walkPos_strictMono len entry hlen).monotone (le_of_lt (by omega)))
        hwin
    rw [find_floatcall_go, if_pos hpos]
    have step :
        walkPos len entry k + len (walkPos len entry k) =
          walkPos len entry (k + 1) := rfl
    by_cases hkki : k = ki
    · subst hkki
      rw [if_pos harm.1, if_pos harm.2, step]
      exact ffc_go_armed mem len entry hlen kj hwin hcall f (k + 1) _ hij
        (by omega) fun m hm1 hm2 => hbet m (by omega) hm2
    · have hk' : k < ki := lt_of_le_of_ne hk hkki
      by_cases hd9 : mem (walkPos len entry k) = X86_FLTBLK2
      · rw [if_pos hd9,
          if_neg (fun hreg => hpre k hk' ⟨hd9, hreg⟩), step]
        exact ih (k + 1) _ (by omega) (by omega)
      · rw [if_neg hd9, if_neg (fun h => by simpa using h.1), step]
        exact ih (k + 1) _ (by omega) (by omega)

/-- Failure phase: if no in-window call is preceded by an arming
instruction, the scan returns `NULL`. -/
theorem ffc_go_nocall (mem len : Nat → Nat) (entry : Nat)
    (hnone : ∀ kj, walkPos len entry kj < entry + 384 →
      mem (walkPos len entry kj) = X86_CALL →
      ∀ ki, ki < kj → ¬ armByte mem (walkPos len entry ki)) :
    ∀ fuel k acc nc,
      (nc = true → ∃ m, m < k ∧ armByte mem (walkPos len entry m)) →
      (find_floatcall_go mem len entry fuel (walkPos len entry k) nc acc).1 =
        none := by
  intro fuel
  induction fuel with
  | zero => intro k acc nc _; rw [find_floatcall_go]
  | succ f ih =>
    intro k acc nc hinv
    rw [find_floatcall_go]
    by_cases hpos : walkPos len entry k < entry + 384
    · rw [if_pos hpos]
      have step :
          walkPos len entry k + len (walkPos len entry k) =
            walkPos len entry (k + 1) := rfl
      by_cases hd9 : mem (walkPos len entry k) = X86_FLTBLK2
      · rw [if_pos hd9]
        by_cases hreg : mem (walkPos len entry k + 1) &&& 0x38 = 0
        · rw [if_pos hreg, step]
          exact ih (k + 1) _ true fun _ => ⟨k, by omega, hd9, hreg⟩
        · rw [if_neg hreg, step]
          exact ih (k + 1) _ nc fun h =>
            (hinv h).elim fun m hm => ⟨m, by omega, hm.2⟩
      · rw [if_neg hd9,
          if_neg (fun h => by
            obtain ⟨m, hm, harm⟩ := hinv h.1
            exact hnone k hpos h.2 m hm harm),
          step]
        exact ih (k + 1) _ nc fun h =>
          (hinv h).elim fun m hm => ⟨m, by omega, hm.2⟩
    · rw [if_neg hpos]

/-- Read-footprint bound: every recorded read lies below
`entry + 384 + 15`, provided walker lengths are at most 16. -/
theorem ffc_go_reads (mem len : Nat → Nat) (entry : Nat)
    (hlen16 : ∀ q, len q ≤ 16) :
    ∀ fuel p nc acc, (∀ r ∈ acc, r < entry + 399) →
      ∀ r ∈ (find_floatcall_go mem len entry fuel p nc acc).2,
        r < entry + 399 := by
  intro fuel
  induction fuel with
  | zero => intro p nc acc hacc; rw [find_floatcall_go]; exact hacc
  | succ f ih =>
    intro p nc acc hacc
    rw [find_floatcall_go]
    by_cases hpos : p < entry + 384
    · rw [if_pos hpos]
      have hins : ∀ r ∈ insnReads len p, r < entry + 399 := by
        intro r hr
        rw [insnReads, List.mem_map] at hr
        obtain ⟨i, hi, rfl⟩ := hr
        rw [List.mem_range] at hi
        have := hlen16 p
        omega
      by_cases hd9 : mem p = X86_FLTBLK2
      · rw [if_pos hd9]
        by_cases hreg : mem (p + 1) &&& 0x38 = 0
        · rw [if_pos hreg]
          refine ih _ _ _ fun r hr => ?_
          rcases List.mem_append.1 hr with h | h
          · exact hins r h
          · rcases List.mem_cons.1 h with rfl | h
            · omega
            · rcases List.mem_cons.1 h with rfl | h
              · omega
              · exact hacc r h
        · rw [if_neg hreg]
          refine ih _ _ _ fun r hr => ?_
          rcases List.mem_append.1 hr with h | h
          · exact hins r h
          · rcases List.mem_cons.1 h with rfl | h
            · omega
            · rcases List.mem_cons.1 h with rfl | h
              · omega
              · exact hacc r h
      · rw [if_neg hd9]
        by_cases hcl : nc = true ∧ mem p = X86_CALL
        · rw [if_pos hcl]
          intro r hr
          rcases List.mem_cons.1 hr with rfl | h
          · omega
          · rcases List.mem_cons.1 h with rfl | h
            · omega
            · rcases List.mem_cons.1 h with rfl | h
              · omega
              · rcases List.mem_cons.1 h with rfl | h
                · omega
                · rcases List.mem_append.1 h with h | h
                  · exact hins r h
                  · rcases List.mem_cons.1 h with rfl | h
                    · omega
                    · exact hacc r h
        · rw [if_neg hcl]
          refine ih _ _ _ fun r hr => ?_
          rcases List.mem_append.1 hr with h | h
          · exact hins r h
          · rcases List.mem_cons.1 h with rfl | h
            · omega
            · exact hacc r h
    · rw [if_neg hpos]
      exact hacc

/-- Claim C1 (amended): on any stream whose walk hits a first arming
FLD-family instruction and later, still inside the 384-byte window, a
first confirming near relative call at `A = walkPos kj` of length
`L = len A` with signed displacement `R`, the locator returns `A + L + R`
(in 32-bit address arithmetic, and exactly whenever `A + L + R` is in
range); if no in-window call follows an arming instruction it returns
`NULL`; and — the amended bound — while every examined instruction
starts below `entry + 384`, the recorded byte reads are only guaranteed
below `entry + 384 + 15` (the loop can read a few bytes past the window
end). -/
theorem find_floatcall_spec (mem len : Nat → Nat) (entry : Nat)
    (hlen : ∀ q, 1 ≤ len q) (hlen16 : ∀ q, len q ≤ 16) :
    (∀ ki kj,
      walkPos len entry kj < entry + 384 →
      mem (walkPos len entry kj) = X86_CALL →
      armByte mem (walkPos len entry ki) →
      ki < kj →
      (∀ m, ki < m → m < kj → mem (walkPos len entry m) ≠ X86_CALL) →
      (∀ m, m < ki → ¬ armByte mem (walkPos len entry m)) →
      (find_floatcall mem len entry).1 =
        some (callTarget mem len (walkPos len entry kj)) ∧
      (0 ≤ (walkPos len entry kj : Int) + len (walkPos len entry kj) +
            toSigned32 (load32 mem (walkPos len entry kj + 1)) →
        (walkPos len entry kj : Int) + len (walkPos len entry kj) +
            toSigned32 (load32 mem (walkPos len entry kj + 1)) < 4294967296 →
        (callTarget mem len (walkPos len entry kj) : Int) =
          (walkPos len entry kj : Int) + len (walkPos len entry kj) +
            toSigned32 (load32 mem (walkPos len entry kj + 1)))) ∧
    ((∀ kj, walkPos len entry kj < entry + 384 →
        mem (walkPos len entry kj) = X86_CALL →
        ∀ ki, ki < kj → ¬ armByte mem (walkPos len entry ki)) →
      (find_floatcall mem len entry).1 = none) ∧
    (∀ r ∈ (find_floatcall mem len entry).2, r < entry + 399) := by
  refine ⟨?_, ?_, ?_⟩
  · intro ki kj hwin hcall harm hij hbet hpre
    have hkj : kj < 384 := by
      have := walkPos_le len entry hlen kj
      omega
    refine ⟨?_, callTarget_signed mem len _⟩
    exact ffc_go_prearm mem len entry hlen ki kj hwin hcall harm hij hbet hpre
      384 0 [] (by omega) (by omega)
  · intro hnone
    exact ffc_go_nocall mem len entry hnone 384 0 [] false (by simp)
  · exact ffc_go_reads mem len entry hlen16 384 entry false [] (by simp)

/-- Witness for C1 (amended): on `armMem` (arm at offset 0, call at
offset 2 with displacement 0x10) the locator returns 2 + 5 + 16 = 23;
on the call-free `nopMem` it returns `NULL`. -/
theorem find_floatcall_spec_witness :
    (find_floatcall armMem armLen 0).1 = some 23 ∧
    (find_floatcall nopMem nopLen 0).1 = none := by
  constructor
  · have h := (find_floatcall_spec armMem armLen 0
        (by intro q; unfold armLen; split_ifs <;> decide)
        (by intro q; unfold armLen; split_ifs <;> decide)).1 0 1
        (by decide) (by decide) (by decide) (by decide)
        (fun m h1 h2 => by omega) (fun m h1 => by omega)
    exact h.1.trans (by decide)
  · refine (find_floatcall_spec nopMem nopLen 0
        (fun q => Nat.le_refl 1) (fun q => by simp [nopLen])).2.1 ?_
    intro kj _ hcall
    exact absurd hcall (by simp [nopMem, X86_CALL])

set_option maxRecDepth 4000 in
/-- Counterexample to C1 as stated: on `edgeMem` the scan still starts
an instruction at offset 383 (< 384), sees the FLD-block opcode there,
and the arming test then reads offset 384 = entry + window; the read
footprint contains 384, refuting "never reads any byte at or past
entry + window". -/
theorem find_floatcall_reads_at_window :
    384 ∈ (find_floatcall edgeMem edgeLen 0).2 := by decide

end SST
